import Mathlib

/-
  Verification development for the Denix-AI editor assistant panel.
  The definitions below are a shallow embedding of the TypeScript sources:
    - src/features/memories.ts      (MemoriesManager)
    - src/features/guidelines.ts    (GuidelinesManager)
    - src/features/rules.ts         (RulesManager)
    - src/features/selection.ts     (SelectionWatcher)
    - src/storage/contextManager.ts (ContextManager.buildContext)
    - src/chatPanel.ts              (ChatPanelProvider)
  JavaScript strings are modelled as Lean Strings (ASCII-sufficient for the
  repository's fixed literals); a JS Set of ids is modelled as a List String
  with membership via contains and deletion via filter.
-/

namespace Denix

/-- Boolean test that the second list is a leading segment of the first
(models the positional step of JavaScript String.prototype.includes). -/
def startsWithL : List Char → List Char → Bool
  | _, [] => true
  | [], _ :: _ => false
  | a :: as, b :: bs => a == b && startsWithL as bs

/-- Boolean substring containment on character lists
(models JavaScript String.prototype.includes). -/
def containsSubL : List Char → List Char → Bool
  | [], needle => needle.isEmpty
  | c :: t, needle => startsWithL (c :: t) needle || containsSubL t needle

/-- JavaScript "hay.includes(needle)". -/
def containsSub (hay needle : String) : Bool :=
  containsSubL hay.toList needle.toList

/-- JavaScript "s.startsWith(p)". -/
def startsWithStr (s p : String) : Bool :=
  startsWithL s.toList p.toList

/-- JavaScript "s.toLowerCase()" (ASCII range, which covers every literal
the sources compare against). -/
def toLowerStr (s : String) : String :=
  String.mk (s.toList.map Char.toLower)

/-- Trim whitespace from both ends of a character list. -/
def trimChars (l : List Char) : List Char :=
  (((l.dropWhile Char.isWhitespace).reverse).dropWhile Char.isWhitespace).reverse

/-- JavaScript "s.trim()". -/
def jsTrim (s : String) : String :=
  String.mk (trimChars s.toList)

/-- Split on the regular expression /\r?\n/ exactly as
"markdown.split(/\r?\n/)" does: a carriage return is consumed only when
immediately followed by a line feed. -/
def splitLinesAux : List Char → List Char → List String
  | [], acc => [String.mk acc.reverse]
  | '\r' :: '\n' :: rest, acc => String.mk acc.reverse :: splitLinesAux rest []
  | '\n' :: rest, acc => String.mk acc.reverse :: splitLinesAux rest []
  | c :: rest, acc => splitLinesAux rest (c :: acc)

/-- JavaScript "s.split(/\r?\n/)". -/
def splitLines (s : String) : List String :=
  splitLinesAux s.toList []

/-- JavaScript falsy-or on an optional string: "x || d". -/
def jsOr : Option String → String → String
  | none, d => d
  | some s, d => if s = "" then d else s

/-- JavaScript falsy-or on a string: "s || d". -/
def jsOrS (s d : String) : String :=
  if s = "" then d else s

/-! ## Memories (src/features/memories.ts) -/

/-- One parsed section of the memories markdown document.  The TypeScript
field named "section" is rendered here as "sectionName" because section is a
reserved word in Lean. -/
structure MemoryEntry where
  sectionName : String
  content : String
  deriving DecidableEq, Repr

/-- Default content written to a fresh memories file. -/
def DEFAULT_MEMORIES : String := "# Denix AI Memories\n\n"

/-- Match of the heading regular expression /^##\s+(.*)/ applied to
line.trim(): two hash marks, at least one whitespace character, then the
rest of the line (a dot in the regex stops at a carriage return). -/
def headingTitle (line : String) : Option String :=
  match (jsTrim line).toList with
  | '#' :: '#' :: c :: rest =>
    if c.isWhitespace then
      some (String.mk (((c :: rest).dropWhile Char.isWhitespace).takeWhile (fun ch => ch ≠ '\r')))
    else none
  | _ => none

/-- JavaScript "line.startsWith('#')" on the untrimmed line. -/
def startsWithHash (line : String) : Bool :=
  startsWithStr line "#"

/-- Accumulator of the splitSections loop: current section title, pending
content lines, and the entries pushed so far. -/
structure SplitState where
  currentTitle : String
  buffer : List String
  entries : List MemoryEntry
  deriving DecidableEq, Repr

/-- The pushCurrent closure of MemoriesManager.splitSections. -/
def pushCurrent (s : SplitState) : SplitState :=
  if s.buffer.isEmpty then s
  else
    { s with
      entries := s.entries ++
        [{ sectionName := jsTrim s.currentTitle
           content := jsTrim (String.intercalate "\n" s.buffer) }]
      buffer := [] }

/-- One iteration of the for-loop of splitSections. -/
def splitStep (s : SplitState) (line : String) : SplitState :=
  match headingTitle line with
  | some title =>
    let s := pushCurrent s
    { s with currentTitle := title }
  | none =>
    if startsWithHash line then s
    else { s with buffer := s.buffer ++ [line] }

/-- MemoriesManager.splitSections: split the markdown document into entries
delimited by "##" headings, discarding entries whose trimmed content is
empty. -/
def splitSections (markdown : String) : List MemoryEntry :=
  let lines := splitLines markdown
  let final := pushCurrent (lines.foldl splitStep { currentTitle := "General", buffer := [], entries := [] })
  final.entries.filter (fun e => e.content.length > 0)

/-- MemoriesManager.getRelevantMemories, with the loaded markdown made an
explicit argument (loading is modelled separately on the file-system state). -/
def getRelevantMemories (markdown : String) (keywords : List String) : List MemoryEntry :=
  let sections := splitSections markdown
  if keywords.isEmpty then sections
  else
    let lowerKeywords := keywords.map toLowerStr
    sections.filter (fun s =>
      let haystack := toLowerStr (s.sectionName ++ "\n" ++ s.content)
      lowerKeywords.any (fun keyword => containsSub haystack keyword))

/-! ## Workspace file-system state

The three knowledge stores live under the .denix directory of the workspace:
memories.md, guidelines.txt and rules/*.md.  The relevant slice of the file
system is modelled as explicit state threaded through the store operations;
the boolean argument of each operation records whether a workspace root is
bound (vscode.workspace.workspaceFolders non-empty). -/

structure FS where
  denixDir : Bool
  memoriesFile : Option String
  guidelinesFile : Option String
  rulesDir : Bool
  ruleFiles : List (String × String)
  deriving DecidableEq, Repr

/-- MemoriesManager.ensureMemoriesFile: create the .denix directory and the
memories file with default content when missing; returns whether a file uri
could be produced (false without a workspace root). -/
def ensureMemoriesFile (ws : Bool) (fs : FS) : FS × Bool :=
  if ws then
    ({ fs with denixDir := true, memoriesFile := some (fs.memoriesFile.getD DEFAULT_MEMORIES) }, true)
  else (fs, false)

/-- MemoriesManager.loadMemories. -/
def loadMemoriesFS (ws : Bool) (fs : FS) : FS × String :=
  let (fs1, ok) := ensureMemoriesFile ws fs
  if ok then (fs1, fs1.memoriesFile.getD "") else (fs1, DEFAULT_MEMORIES)

/-- GuidelinesManager.loadGuidelines (which calls its private ensureFile,
creating the .denix directory and an empty guidelines file when missing). -/
def loadGuidelinesFS (ws : Bool) (fs : FS) : FS × String :=
  if ws then
    ({ fs with denixDir := true, guidelinesFile := some (fs.guidelinesFile.getD "") },
      fs.guidelinesFile.getD "")
  else (fs, "")

/-! ## Rules (src/features/rules.ts) -/

structure RuleFile where
  name : String
  path : String
  content : String
  deriving DecidableEq, Repr

/-- JavaScript "name.endsWith('.md')" (case sensitive). -/
def endsWithMd (name : String) : Bool :=
  startsWithL name.toList.reverse ".md".toList.reverse

/-- JavaScript "name.replace(/\.md$/i, '')" restricted to names already known
to end with the lowercase extension. -/
def stripMd (name : String) : String :=
  String.mk (name.toList.dropLast.dropLast.dropLast)

/-- The rules directory path relative to the workspace root. -/
def rulesDirPath : String := ".denix/rules"

/-- The RuleFile records produced by RulesManager.listRuleFiles from the
directory listing, without the file-system effect. -/
def rulesOf (fs : FS) : List RuleFile :=
  fs.ruleFiles.filterMap (fun f =>
    if endsWithMd f.1 then
      some { name := stripMd f.1, path := rulesDirPath ++ "/" ++ f.1, content := f.2 }
    else none)

/-- RulesManager.listRuleFiles: ensures the rules directory exists
(vscode createDirectory is recursive, so the .denix parent is created too),
then reads every markdown file in it. -/
def listRuleFilesFS (ws : Bool) (fs : FS) : FS × List RuleFile :=
  if ws then ({ fs with denixDir := true, rulesDir := true }, rulesOf fs)
  else (fs, [])

/-- RulesManager.getRuleContent: re-list the rule files and return the
content of the first rule carrying the name, or the empty string. -/
def getRuleContentFS (ws : Bool) (fs : FS) (name : String) : FS × String :=
  let (fs1, rules) := listRuleFilesFS ws fs
  (fs1, ((rules.find? (fun r => r.name == name)).map RuleFile.content).getD "")

/-! ## Selection (src/features/selection.ts) -/

structure SelectionContext where
  uri : String
  fileName : String
  relativePath : String
  text : String
  startLine : Nat
  endLine : Nat
  deriving DecidableEq, Repr

/-! ## Context assembly (src/storage/contextManager.ts) -/

structure BuiltContext where
  memories : String
  relevantMemories : List String
  guidelines : String
  rules : List RuleFile
  selection : Option SelectionContext
  deriving DecidableEq, Repr

/-- Formatting of one relevant memory entry in ContextManager.buildContext. -/
def memoryString (m : MemoryEntry) : String :=
  "## " ++ m.sectionName ++ "\n" ++ m.content

/-- The per-rule content load of ContextManager.buildContext, threading the
file-system state. -/
def ruleContentStep (ws : Bool) (acc : FS × List RuleFile) (rule : RuleFile) : FS × List RuleFile :=
  let p := getRuleContentFS ws acc.1 rule.name
  (p.1, acc.2 ++ [{ name := rule.name, path := rule.path, content := p.2 }])

/-- ContextManager.buildContext.  The three store loads run under
Promise.all with no shared mutable state; they are sequenced here in
declaration order (each ensure operation is idempotent, so the final
file-system state does not depend on the interleaving). -/
def buildContextFS (ws : Bool) (fs : FS) (keywords : List String)
    (selection : Option SelectionContext) : FS × BuiltContext :=
  let g := loadGuidelinesFS ws fs
  let r := listRuleFilesFS ws g.1
  let m := loadMemoriesFS ws r.1
  let relevant := getRelevantMemories m.2 keywords
  let folded := r.2.foldl (ruleContentStep ws) (m.1, [])
  let m2 := loadMemoriesFS ws folded.1
  (m2.1,
    { memories := m2.2
      relevantMemories := relevant.map memoryString
      guidelines := g.2
      rules := folded.2
      selection := selection })

/-! ## Attachments and the reconciler (src/chatPanel.ts) -/

inductive AttachmentType where
  | file | image | memory | rule | guideline | selection
  deriving DecidableEq, Repr

structure Attachment where
  id : String
  type : AttachmentType
  name : String
  path : Option String := none
  content : Option String := none
  thumbnail : Option String := none
  deriving DecidableEq, Repr

/-- The synthetic Memories attachment pushed by _updateContextAttachments:
the relevant memory strings joined with a blank-line separator. -/
def memoriesAttachment (relevantMemories : List String) : Attachment :=
  { id := "memories", type := .file, path := some ".denix/memories.md",
    name := "Memories", content := some (String.intercalate "\n\n" relevantMemories) }

/-- The attachment pushed by _updateContextAttachments for one rule. -/
def ruleAttachment (rule : RuleFile) : Attachment :=
  { id := "rule-" ++ rule.name, type := .file, path := some rule.path,
    name := "@" ++ rule.name, content := some rule.content }

/-- The attachment pushed by _updateContextAttachments for the current
selection. -/
def selectionAttachment (sel : SelectionContext) : Attachment :=
  { id := "selection", type := .file, path := some sel.uri,
    name := sel.fileName ++ ":" ++ toString sel.startLine ++ "-" ++ toString sel.endLine,
    content := some sel.text }

/-- The body of the rules loop of _updateContextAttachments: skip a rule
whose id is dismissed, otherwise push its attachment. -/
def ruleAttachmentStep (dismissed : List String) (acc : List Attachment)
    (rule : RuleFile) : List Attachment :=
  if dismissed.contains ("rule-" ++ rule.name) then acc
  else acc ++ [ruleAttachment rule]

/-- ChatPanelProvider._updateContextAttachments: rebuild the context
attachment list from a built context bundle and the set of dismissed ids. -/
def updateContextAttachments (ctx : BuiltContext) (dismissed : List String) : List Attachment :=
  let atts : List Attachment := []
  let atts := if ctx.relevantMemories.length > 0 then
      atts ++ [memoriesAttachment ctx.relevantMemories]
    else atts
  let atts := ctx.rules.foldl (ruleAttachmentStep dismissed) atts
  match ctx.selection with
  | some sel =>
    if dismissed.contains "selection" then atts
    else atts ++ [selectionAttachment sel]
  | none => atts

/-- The merged list built in _handleUserMessage:
"[...attachments, ...this._contextAttachments]". -/
def mergeAttachments (explicitAtts contextAtts : List Attachment) : List Attachment :=
  explicitAtts ++ contextAtts

/-- One full reconciler pass: assemble the context bundle from the stores and
convert it into the published context-attachment list. -/
def recomputeContextAttachments (ws : Bool) (fs : FS) (keywords : List String)
    (selection : Option SelectionContext) (dismissed : List String) : List Attachment :=
  updateContextAttachments (buildContextFS ws fs keywords selection).2 dismissed

/-! ## Derived views of the stores, used to state the theorems -/

/-- The memories document a bound workspace ends up with after a load. -/
def memoriesDocOf (fs : FS) : String :=
  fs.memoriesFile.getD DEFAULT_MEMORIES

/-- The formatted relevant memory strings produced from a store state and a
keyword list. -/
def relevantMemoryStringsOf (fs : FS) (keywords : List String) : List String :=
  (getRelevantMemories (memoriesDocOf fs) keywords).map memoryString

/-- The content the context assembler attaches to a rule name: the content
of the first listed rule carrying that name, or the empty string. -/
def ruleContentOf (fs : FS) (name : String) : String :=
  (((rulesOf fs).find? (fun r => r.name == name)).map RuleFile.content).getD ""

/-- The rule list as assembled into the context bundle. -/
def assembledRulesOf (fs : FS) : List RuleFile :=
  (rulesOf fs).map (fun r => { name := r.name, path := r.path, content := ruleContentOf fs r.name })

/-- The file-system state left behind by one context assembly on a bound
workspace: both store directories exist, the memories and guidelines files
exist with their previous content (or the defaults), and the rule files are
untouched. -/
def ensuredFS (fs : FS) : FS :=
  { denixDir := true, rulesDir := true,
    memoriesFile := some (fs.memoriesFile.getD DEFAULT_MEMORIES),
    guidelinesFile := some (fs.guidelinesFile.getD ""),
    ruleFiles := fs.ruleFiles }

/-- Whether the source backing a context-attachment id still exists in a
bundle: memory strings for "memories", a rule of the right name for a
"rule-" id, a selection snapshot for "selection". -/
def sourceStillExists (ctx : BuiltContext) (x : String) : Bool :=
  if x = "memories" then !ctx.relevantMemories.isEmpty
  else if x = "selection" then ctx.selection.isSome
  else ctx.rules.any (fun r => x == "rule-" ++ r.name)

/-! ## Conversation state and request building (src/chatPanel.ts) -/

structure ChatMessage where
  id : String
  role : String
  content : String
  attachments : List Attachment := []
  timestamp : Nat
  deriving DecidableEq, Repr

/-- The vision-capable model allow-list of _isVisionModel. -/
def visionModels : List String :=
  [ "gpt-4-vision", "gpt-4-turbo", "gpt-4o", "gpt-4o-mini",
    "claude-3-opus", "claude-3-sonnet", "claude-3-haiku",
    "claude-3-5-sonnet", "claude-3-5-haiku",
    "openai/gpt-4-vision-preview", "openai/gpt-4-turbo", "openai/gpt-4o",
    "openai/gpt-4o-mini", "anthropic/claude-3-opus", "anthropic/claude-3-sonnet",
    "anthropic/claude-3-haiku", "anthropic/claude-3-5-sonnet",
    "anthropic/claude-3-5-haiku" ]

/-- ChatPanelProvider._isVisionModel. -/
def isVisionModel (model : String) : Bool :=
  visionModels.any (fun vm => containsSub (toLowerStr model) (toLowerStr vm))

/-- One element of a structured message content array in the provider
request (text block or image_url block). -/
inductive ContentPart where
  | text (t : String)
  | imageUrl (url : String)
  deriving DecidableEq, Repr

/-- Message content in the provider request: either a plain string or an
array of content parts. -/
inductive ApiContent where
  | str (s : String)
  | parts (ps : List ContentPart)
  deriving DecidableEq, Repr

structure ApiMessage where
  role : String
  content : ApiContent
  deriving DecidableEq, Repr

/-- JavaScript truthiness of the optional attachment content field. -/
def hasContent : Option String → Bool
  | none => false
  | some s => s ≠ ""

/-- The vision-branch merge in _handleUserMessage: append text to the last
content part when it is a text part, otherwise push a new text part. -/
def appendToLastText (parts : List ContentPart) (t : String) : List ContentPart :=
  match parts.getLast? with
  | some (ContentPart.text s) => parts.dropLast ++ [ContentPart.text (s ++ t)]
  | _ => parts ++ [ContentPart.text t]

/-- One step of the attachment loop in _handleUserMessage, updating the
pair of accumulated plain text and accumulated content parts. -/
def attachmentStep (isVision : Bool) (acc : String × List ContentPart)
    (att : Attachment) : String × List ContentPart :=
  if att.type = AttachmentType.file ∧ hasContent att.content then
    let fileContext := "\n\n[File: " ++ att.name ++ "]\n" ++ att.content.getD ""
    if isVision then (acc.1, appendToLastText acc.2 fileContext)
    else (acc.1 ++ fileContext, acc.2)
  else if att.type = AttachmentType.image ∧ hasContent att.content then
    if isVision then
      let c := att.content.getD ""
      let url := if startsWithStr c "data:" then c else "data:image/png;base64," ++ c
      (acc.1, acc.2 ++ [ContentPart.imageUrl url])
    else (acc.1 ++ "\n\n[Image: " ++ att.name ++ "]", acc.2)
  else acc

/-- Conversion of one history message into a provider message, following the
body of the history loop in _handleUserMessage. -/
def convertMessage (isVision : Bool) (msg : ChatMessage) : ApiMessage :=
  let initParts : List ContentPart :=
    if jsTrim msg.content ≠ "" ∧ isVision then [ContentPart.text msg.content] else []
  let acc := msg.attachments.foldl (attachmentStep isVision) (msg.content, initParts)
  if isVision ∧ acc.2 ≠ [] then { role := msg.role, content := ApiContent.parts acc.2 }
  else { role := msg.role, content := ApiContent.str acc.1 }

/-- The fixed assistant persona string of _handleUserMessage. -/
def personaPrompt : String :=
  "You are an expert AI coding assistant. Help users with code explanations, debugging, and development tasks."

/-- The system message construction of _handleUserMessage. -/
def buildSystemContent (guidelines : String) (relevantMemories : List String) : String :=
  let s := personaPrompt
  let s := if guidelines ≠ "" then s ++ "\n\n## User Guidelines:\n" ++ guidelines else s
  if relevantMemories.length > 0 then
    s ++ "\n\n## Project Memories:\n" ++ String.intercalate "\n\n" relevantMemories
  else s

/-- The full provider message array: the system message followed by the
converted conversation history. -/
def buildApiMessages (isVision : Bool) (systemContent : String)
    (history : List ChatMessage) : List ApiMessage :=
  { role := "system", content := ApiContent.str systemContent } ::
    history.map (convertMessage isVision)

/-- Split a character list at every whitespace character.  Tokens between
consecutive separators come out empty; the keyword filter below drops them,
which makes this agree with the JavaScript split on /\s+/ used by
_extractKeywords once short tokens are removed. -/
def splitWsAux : List Char → List Char → List String
  | [], acc => [String.mk acc.reverse]
  | c :: rest, acc =>
    if c.isWhitespace then String.mk acc.reverse :: splitWsAux rest []
    else splitWsAux rest (c :: acc)

/-- Whitespace split of a string. -/
def splitWs (s : String) : List String :=
  splitWsAux s.toList []

/-- De-duplication with first-occurrence order, as "[...new Set(xs)]". -/
def jsDedup (l : List String) : List String :=
  l.foldl (fun acc x => if acc.contains x then acc else acc ++ [x]) []

/-- ChatPanelProvider._extractKeywords: lowercase the last three messages,
split on whitespace, keep tokens longer than four characters, de-duplicate. -/
def extractKeywords (messages : List ChatMessage) : List String :=
  let lastMessages := messages.drop (messages.length - 3)
  let keywords := (lastMessages.map (fun m =>
    (splitWs (toLowerStr m.content)).filter (fun w => w.length > 4))).flatten
  jsDedup keywords

/-! ## Message send and error handling (src/chatPanel.ts _handleUserMessage) -/

/-- Parse status of the error body of a non-2xx provider response. -/
inductive ErrorBody where
  | parsedWithError (message : Option String)
  | parsedNoError
  | unparsed (raw : String)
  deriving DecidableEq, Repr

/-- Outcome of the provider call: an exception thrown by fetch or body
parsing, a non-2xx response, or a 2xx response carrying the optional
choices[0].message.content field. -/
inductive ProviderResult where
  | thrown (message : String)
  | httpError (status : Nat) (body : ErrorBody)
  | success (content : Option String)
  deriving DecidableEq, Repr

/-- The error-message computation for a non-ok response in
_handleUserMessage, including the dedicated HTTP 402 credit message. -/
def httpErrorMessage (status : Nat) (maxTokens : Nat) (body : ErrorBody) : String :=
  let base := "API request failed: HTTP " ++ toString status
  match body with
  | ErrorBody.parsedWithError m =>
    if status = 402 then
      "**Insufficient Credits**\n\n" ++
        jsOr m "You need more credits to make this request." ++
        "\n\n**Solution:**\n- Reduce max_tokens in settings (currently: " ++ toString maxTokens ++
        ")\n- Add credits at https://openrouter.ai/settings/credits\n- Or upgrade to a paid account"
    else jsOr m base
  | ErrorBody.parsedNoError => base
  | ErrorBody.unparsed raw => base ++ " - " ++ raw

/-- The synthetic assistant message appended by the catch handler. -/
def errorChatMessage (message : String) (now : Nat) : ChatMessage :=
  { id := "msg-" ++ toString now
    role := "assistant"
    content := "**Error:** " ++ jsOrS message "An error occurred while processing your request."
    timestamp := now }

/-- Result of one _handleUserMessage invocation: the message history, the
explicit-attachment list of the panel state, the typing-indicator flag
standing for the awaitingResponse state, and the provider request when one
was built. -/
structure SendResult where
  messages : List ChatMessage
  stateAttachments : List Attachment
  generating : Bool
  request : Option (List ApiMessage)
  deriving DecidableEq, Repr

/-- ChatPanelProvider._handleUserMessage as a state transformer over the
message history, explicit attachments and file-system state, parameterised
by the provider outcome and the Date.now() value of the turn. -/
def handleUserMessage (oldMessages : List ChatMessage)
    (stateAttachments contextAttachments : List Attachment)
    (content : String) (attachments : List Attachment)
    (apiKey : Option String) (maxTokens : Nat) (model : String)
    (ws : Bool) (fs : FS) (selection : Option SelectionContext)
    (provider : ProviderResult) (now : Nat) : SendResult :=
  let allAttachments := mergeAttachments attachments contextAttachments
  if jsTrim content = "" ∧ allAttachments.isEmpty then
    { messages := oldMessages, stateAttachments := stateAttachments,
      generating := false, request := none }
  else
    let userMessage : ChatMessage :=
      { id := "msg-" ++ toString now, role := "user", content := content,
        attachments := allAttachments, timestamp := now }
    let messages1 := oldMessages ++ [userMessage]
    match apiKey with
    | none =>
      { messages := messages1 ++
          [errorChatMessage "OpenRouter API key not configured. Please set it in settings." now]
        stateAttachments := [], generating := false, request := none }
    | some _ =>
      let keywords := extractKeywords messages1
      let ctx := (buildContextFS ws fs keywords selection).2
      let systemContent := buildSystemContent ctx.guidelines ctx.relevantMemories
      let apiMessages := buildApiMessages (isVisionModel model) systemContent messages1
      match provider with
      | ProviderResult.thrown m =>
        { messages := messages1 ++ [errorChatMessage m now]
          stateAttachments := [], generating := false, request := some apiMessages }
      | ProviderResult.httpError status body =>
        { messages := messages1 ++ [errorChatMessage (httpErrorMessage status maxTokens body) now]
          stateAttachments := [], generating := false, request := some apiMessages }
      | ProviderResult.success contentOpt =>
        let aiContent := jsOr contentOpt ""
        if aiContent = "" then
          { messages := messages1 ++ [errorChatMessage "AI returned empty response" now]
            stateAttachments := [], generating := false, request := some apiMessages }
        else
          { messages := messages1 ++
              [{ id := "msg-" ++ toString now, role := "assistant",
                 content := aiContent, timestamp := now }]
            stateAttachments := [], generating := false, request := some apiMessages }

/-- A provider interaction that the error taxonomy counts as a failure:
missing credentials, a thrown transport or parse error, a non-2xx status, or
a 2xx response without usable content. -/
def isProviderFailure (apiKey : Option String) (provider : ProviderResult) : Prop :=
  apiKey = none ∨
    (match provider with
     | ProviderResult.thrown _ => True
     | ProviderResult.httpError _ _ => True
     | ProviderResult.success contentOpt => jsOr contentOpt "" = "")

/-! ## Derived views of the request, used to state the theorems -/

/-- Concatenation of a list of strings. -/
def concatStrings : List String → String
  | [] => ""
  | s :: rest => s ++ concatStrings rest

/-- The text block a single attachment contributes to a message sent to a
non-vision model: an inlined file block, a bracketed image marker, or
nothing when the attachment carries no content. -/
def attachmentTextBlock (a : Attachment) : String :=
  if a.type = AttachmentType.file ∧ hasContent a.content then
    "\n\n[File: " ++ a.name ++ "]\n" ++ a.content.getD ""
  else if a.type = AttachmentType.image ∧ hasContent a.content then
    "\n\n[Image: " ++ a.name ++ "]"
  else ""

/-- Number of image parts in one content part. -/
def partImageCount : ContentPart → Nat
  | ContentPart.imageUrl _ => 1
  | ContentPart.text _ => 0

/-- Number of image parts in one provider message content. -/
def contentImageCount : ApiContent → Nat
  | ApiContent.str _ => 0
  | ApiContent.parts ps => (ps.map partImageCount).sum

/-- Total number of image parts in a provider request. -/
def requestImageParts (ms : List ApiMessage) : Nat :=
  (ms.map (fun m => contentImageCount m.content)).sum

/-- The plain text of the system message of a built request, when present. -/
def requestSystemText (r : SendResult) : Option String :=
  r.request.bind (fun ms => ms.head?.bind (fun m =>
    match m.content with
    | ApiContent.str s => some s
    | ApiContent.parts _ => none))

/-- The plain text of the i-th message of a built request, when present. -/
def requestMessageText (r : SendResult) (i : Nat) : Option String :=
  r.request.bind (fun ms => (ms.get? i).bind (fun m =>
    match m.content with
    | ApiContent.str s => some s
    | ApiContent.parts _ => none))

/-- The trimmed joined content collected before the first "##" heading of a
memories document by splitSections, i.e. the content of the section named
General when it is non-empty. -/
def preGeneralContent (md : String) : String :=
  jsTrim (String.intercalate "\n"
    (((splitLines md).takeWhile (fun l => (headingTitle l).isNone)).filter
      (fun l => !startsWithHash l)))

/-! ## Panel state and thread commands (src/chatPanel.ts) -/

structure PanelState where
  threadId : String
  messages : List ChatMessage
  attachments : List Attachment
  contextAttachments : List Attachment
  dismissedContextIds : List String
  selectedModel : String
  autoMode : Bool
  deriving DecidableEq, Repr

/-- The newThread branch of _handleCommand (webview command). -/
def handleNewThreadCommand (s : PanelState) (now : Nat) : PanelState :=
  { s with threadId := "thread-" ++ toString now, messages := [], attachments := [] }

/-- The public createNewThread method (denix-ai.newThread command). -/
def createNewThread (s : PanelState) (now : Nat) : PanelState :=
  { s with threadId := "thread-" ++ toString now, messages := [], attachments := [],
           contextAttachments := [], dismissedContextIds := [] }

/-- The dismissContext message handler: add the id to the dismissal set. -/
def dismissContext (dismissed : List String) (id : String) : List String :=
  if dismissed.contains id then dismissed else dismissed ++ [id]

/-- Deletion from the dismissal set (Set.prototype.delete). -/
def removeDismissed (dismissed : List String) (id : String) : List String :=
  dismissed.filter (fun x => x ≠ id)

/-! ## Supporting lemmas: strings -/

lemma string_data_append (s t : String) : (s ++ t).data = s.data ++ t.data := rfl

lemma string_ext {s t : String} (h : s.data = t.data) : s = t := by
  cases s
  cases t
  exact congrArg String.mk h

lemma string_append_nil (s : String) : s ++ "" = s := by
  apply string_ext
  rw [string_data_append]
  exact List.append_nil _

lemma string_append_assoc (a b c : String) : a ++ b ++ c = a ++ (b ++ c) := by
  apply string_ext
  rw [string_data_append, string_data_append, string_data_append, string_data_append]
  exact List.append_assoc _ _ _

lemma ruleId_inj {n m : String} (h : "rule-" ++ n = "rule-" ++ m) : n = m := by
  have h1 : ("rule-" ++ n).data = ("rule-" ++ m).data := congrArg String.data h
  rw [string_data_append, string_data_append] at h1
  exact string_ext (List.append_cancel_left h1)

lemma memories_ne_ruleId (n : String) : ("memories" : String) ≠ "rule-" ++ n := by
  intro h
  have h1 : ("memories" : String).data = ("rule-" ++ n).data := congrArg String.data h
  rw [string_data_append] at h1
  have h2 : ("memories" : String).data = ['m', 'e', 'm', 'o', 'r', 'i', 'e', 's'] := rfl
  have h3 : ("rule-" : String).data = ['r', 'u', 'l', 'e', '-'] := rfl
  rw [h2, h3] at h1
  simp only [List.cons_append] at h1
  injection h1 with hc _
  exact absurd hc (by decide)

lemma selection_ne_ruleId (n : String) : ("selection" : String) ≠ "rule-" ++ n := by
  intro h
  have h1 : ("selection" : String).data = ("rule-" ++ n).data := congrArg String.data h
  rw [string_data_append] at h1
  have h2 : ("selection" : String).data = ['s', 'e', 'l', 'e', 'c', 't', 'i', 'o', 'n'] := rfl
  have h3 : ("rule-" : String).data = ['r', 'u', 'l', 'e', '-'] := rfl
  rw [h2, h3] at h1
  simp only [List.cons_append] at h1
  injection h1 with hc _
  exact absurd hc (by decide)

lemma string_length_pos {s : String} (h : s ≠ "") : 0 < s.length := by
  cases s with
  | mk data =>
    cases data with
    | nil => exact absurd rfl h
    | cons c cs => simp [String.length]

lemma string_ne_empty_of_length_pos {s : String} (h : 0 < s.length) : s ≠ "" := by
  intro he
  subst he
  simp [String.length] at h

lemma startsWithL_append (p rest : List Char) : startsWithL (p ++ rest) p = true := by
  induction p with
  | nil => cases rest <;> rfl
  | cons c cs ih => simp [startsWithL, ih]

lemma startsWithStr_append (p s : String) : startsWithStr (p ++ s) p = true := by
  have h : (p ++ s).toList = p.toList ++ s.toList := rfl
  rw [startsWithStr, h]
  exact startsWithL_append _ _

/-! ## Supporting lemmas: the reconciler output -/

/-- The rule filter written as one pass over the rule list. -/
def ruleAttachmentsOf (dismissed : List String) (rules : List RuleFile) : List Attachment :=
  rules.filterMap (fun r =>
    if dismissed.contains ("rule-" ++ r.name) then none else some (ruleAttachment r))

/-- The selection tail of the reconciler output. -/
def selectionAttachmentsOf (dismissed : List String)
    (selection : Option SelectionContext) : List Attachment :=
  match selection with
  | some sel => if dismissed.contains "selection" then [] else [selectionAttachment sel]
  | none => []

/-- The memories head of the reconciler output. -/
def memoriesAttachmentsOf (relevantMemories : List String) : List Attachment :=
  if relevantMemories ≠ [] then [memoriesAttachment relevantMemories] else []

lemma ruleAttachmentStep_foldl (dismissed : List String) :
    ∀ (rules : List RuleFile) (acc : List Attachment),
    rules.foldl (ruleAttachmentStep dismissed) acc = acc ++ ruleAttachmentsOf dismissed rules := by
  intro rules
  induction rules with
  | nil => intro acc; simp [ruleAttachmentsOf]
  | cons r rs ih =>
    intro acc
    by_cases h : ("rule-" ++ r.name) ∈ dismissed
    · simp [List.foldl_cons, ruleAttachmentStep, h, ih, ruleAttachmentsOf]
    · simp [List.foldl_cons, ruleAttachmentStep, h, ih, ruleAttachmentsOf]

/-- The reconciler output decomposed into its memories, rules and selection
segments, in that order. -/
lemma updateContextAttachments_eq (ctx : BuiltContext) (dismissed : List String) :
    updateContextAttachments ctx dismissed =
      memoriesAttachmentsOf ctx.relevantMemories
        ++ ruleAttachmentsOf dismissed ctx.rules
        ++ selectionAttachmentsOf dismissed ctx.selection := by
  simp only [updateContextAttachments]
  rw [ruleAttachmentStep_foldl]
  have hM : (if ctx.relevantMemories.length > 0 then
        ([] : List Attachment) ++ [memoriesAttachment ctx.relevantMemories] else []) =
      memoriesAttachmentsOf ctx.relevantMemories := by
    rw [List.nil_append, memoriesAttachmentsOf]
    exact if_congr (by simp [List.length_pos]) rfl rfl
  rw [hM]
  cases hsel : ctx.selection with
  | none => simp [selectionAttachmentsOf]
  | some sel =>
    by_cases hd : ("selection" : String) ∈ dismissed
    · simp [selectionAttachmentsOf, hd]
    · simp [selectionAttachmentsOf, hd, List.append_assoc]

lemma ruleAttachmentsOf_eq_map (dismissed : List String) (rules : List RuleFile) :
    ruleAttachmentsOf dismissed rules =
      (rules.filter (fun r => !dismissed.contains ("rule-" ++ r.name))).map ruleAttachment := by
  induction rules with
  | nil => rfl
  | cons r rs ih =>
    by_cases h : ("rule-" ++ r.name) ∈ dismissed
    · simp [ruleAttachmentsOf, List.filterMap_cons, h] at ih ⊢
      exact ih
    · simp [ruleAttachmentsOf, List.filterMap_cons, h] at ih ⊢
      exact ih

lemma mem_updateContextAttachments {ctx : BuiltContext} {dismissed : List String} {a : Attachment} :
    a ∈ updateContextAttachments ctx dismissed ↔
      (ctx.relevantMemories ≠ [] ∧ a = memoriesAttachment ctx.relevantMemories)
      ∨ (∃ r ∈ ctx.rules, ("rule-" ++ r.name) ∉ dismissed ∧ a = ruleAttachment r)
      ∨ (∃ sel, ctx.selection = some sel ∧ ("selection" : String) ∉ dismissed
          ∧ a = selectionAttachment sel) := by
  rw [updateContextAttachments_eq]
  simp only [List.mem_append, memoriesAttachmentsOf, ruleAttachmentsOf_eq_map,
    selectionAttachmentsOf, List.mem_map, List.mem_filter]
  constructor
  · rintro ((h | h) | h)
    · by_cases hm : ctx.relevantMemories = []
      · simp [hm] at h
      · simp [hm] at h
        exact Or.inl ⟨hm, h⟩
    · obtain ⟨r, ⟨hr, hcond⟩, ha⟩ := h
      refine Or.inr (Or.inl ⟨r, hr, ?_, ha.symm⟩)
      simpa using hcond
    · cases hsel : ctx.selection with
      | none => rw [hsel] at h; simp at h
      | some sel =>
        rw [hsel] at h
        by_cases hd : ("selection" : String) ∈ dismissed
        · simp [hd] at h
        · simp [hd] at h
          exact Or.inr (Or.inr ⟨sel, rfl, hd, h⟩)
  · rintro (⟨hm, ha⟩ | ⟨r, hr, hcond, ha⟩ | ⟨sel, hsel, hd, ha⟩)
    · left; left; simp [hm, ha]
    · left; right
      refine ⟨r, ⟨hr, ?_⟩, ha.symm⟩
      simpa using hcond
    · right
      rw [hsel]
      simp [hd, ha]

lemma updateContextAttachments_ids_nodup (ctx : BuiltContext) (dismissed : List String)
    (hnames : (ctx.rules.map RuleFile.name).Nodup) :
    ((updateContextAttachments ctx dismissed).map Attachment.id).Nodup := by
  rw [updateContextAttachments_eq]
  rw [List.map_append, List.map_append]
  have hrid : ∀ l : List RuleFile, (l.map ruleAttachment).map Attachment.id =
      (l.map RuleFile.name).map (fun n => "rule-" ++ n) := by
    intro l
    rw [List.map_map, List.map_map]
    rfl
  have hmemIds : ∀ x ∈ (memoriesAttachmentsOf ctx.relevantMemories).map Attachment.id,
      x = "memories" := by
    intro x hx
    by_cases hm : ctx.relevantMemories = [] <;>
      simp [memoriesAttachmentsOf, hm, memoriesAttachment] at hx <;> try exact hx
  have hselIds : ∀ x ∈ (selectionAttachmentsOf dismissed ctx.selection).map Attachment.id,
      x = "selection" := by
    intro x hx
    cases hsel : ctx.selection with
    | none => rw [hsel] at hx; simp [selectionAttachmentsOf] at hx
    | some sel =>
      rw [hsel] at hx
      by_cases hd : ("selection" : String) ∈ dismissed <;>
        simp [selectionAttachmentsOf, hd, selectionAttachment] at hx <;> try exact hx
  have hruleIds : ∀ x ∈ (ruleAttachmentsOf dismissed ctx.rules).map Attachment.id,
      ∃ n, x = "rule-" ++ n := by
    intro x hx
    rw [ruleAttachmentsOf_eq_map, hrid] at hx
    obtain ⟨n, _, hn⟩ := List.mem_map.mp hx
    exact ⟨n, hn.symm⟩
  have hruleNodup : ((ruleAttachmentsOf dismissed ctx.rules).map Attachment.id).Nodup := by
    rw [ruleAttachmentsOf_eq_map, hrid]
    apply List.Nodup.map
    · intro n m hnm
      exact ruleId_inj hnm
    · exact List.Nodup.sublist (List.Sublist.map RuleFile.name (List.filter_sublist _)) hnames
  have hmemNodup : ((memoriesAttachmentsOf ctx.relevantMemories).map Attachment.id).Nodup := by
    by_cases hm : ctx.relevantMemories = [] <;> simp [memoriesAttachmentsOf, hm]
  have hselNodup : ((selectionAttachmentsOf dismissed ctx.selection).map Attachment.id).Nodup := by
    cases hsel : ctx.selection with
    | none => simp [selectionAttachmentsOf]
    | some sel =>
      by_cases hd : ("selection" : String) ∈ dismissed <;> simp [selectionAttachmentsOf, hd]
  rw [List.nodup_append, List.nodup_append]
  refine ⟨⟨hmemNodup, hruleNodup, ?_⟩, hselNodup, ?_⟩
  · intro x hx hx2
    obtain ⟨n, hn⟩ := hruleIds x hx2
    rw [hmemIds x hx] at hn
    exact memories_ne_ruleId n hn
  · intro x hx hx2
    rw [hselIds x hx2] at hx
    rcases List.mem_append.mp hx with hx | hx
    · have := hmemIds _ hx
      simp at this
    · obtain ⟨n, hn⟩ := hruleIds _ hx
      exact selection_ne_ruleId n hn

/-! ## Supporting lemmas: the context assembler -/

lemma getRuleContentFS_ensured (fs0 : FS) (name : String) :
    getRuleContentFS true (ensuredFS fs0) name = (ensuredFS fs0, ruleContentOf fs0 name) := rfl

lemma ruleContentStep_foldl (fs0 : FS) :
    ∀ (l : List RuleFile) (acc : List RuleFile),
    l.foldl (ruleContentStep true) (ensuredFS fs0, acc)
      = (ensuredFS fs0,
         acc ++ l.map (fun r =>
           { name := r.name, path := r.path, content := ruleContentOf fs0 r.name })) := by
  intro l
  induction l with
  | nil => intro acc; simp
  | cons r rs ih =>
    intro acc
    rw [List.foldl_cons]
    have hstep : ruleContentStep true (ensuredFS fs0, acc) r =
        (ensuredFS fs0,
         acc ++ [{ name := r.name, path := r.path, content := ruleContentOf fs0 r.name }]) := by
      simp [ruleContentStep, getRuleContentFS_ensured]
    rw [hstep, ih]
    simp

lemma buildContextFS_true (fs : FS) (kws : List String) (sel : Option SelectionContext) :
    buildContextFS true fs kws sel =
      (ensuredFS fs,
       { memories := memoriesDocOf fs
         relevantMemories := relevantMemoryStringsOf fs kws
         guidelines := fs.guidelinesFile.getD ""
         rules := assembledRulesOf fs
         selection := sel }) := by
  have hfold := ruleContentStep_foldl fs (rulesOf fs) []
  show ((loadMemoriesFS true ((rulesOf fs).foldl (ruleContentStep true) (ensuredFS fs, [])).1).1,
        ({ memories := (loadMemoriesFS true ((rulesOf fs).foldl (ruleContentStep true) (ensuredFS fs, [])).1).2
           relevantMemories := relevantMemoryStringsOf fs kws
           guidelines := fs.guidelinesFile.getD ""
           rules := ((rulesOf fs).foldl (ruleContentStep true) (ensuredFS fs, [])).2
           selection := sel } : BuiltContext)) = _
  rw [hfold]
  rfl

lemma buildContextFS_false (fs : FS) (kws : List String) (sel : Option SelectionContext) :
    buildContextFS false fs kws sel =
      (fs,
       { memories := DEFAULT_MEMORIES
         relevantMemories := []
         guidelines := ""
         rules := []
         selection := sel }) := by
  have hrel : getRelevantMemories DEFAULT_MEMORIES kws = [] := by
    have hsec : splitSections DEFAULT_MEMORIES = [] := by decide
    by_cases hk : kws.isEmpty
    · simp [getRelevantMemories, hk, hsec]
    · simp [getRelevantMemories, hk, hsec]
  simp only [buildContextFS, loadGuidelinesFS, listRuleFilesFS, loadMemoriesFS,
    ensureMemoriesFile, Bool.false_eq_true, if_false, List.foldl_nil, hrel, List.map_nil]

/-! ## Supporting lemmas: non-vision request building -/

lemma attachmentStep_false (atts : List Attachment) :
    ∀ mc : String,
    atts.foldl (attachmentStep false) (mc, []) =
      (mc ++ concatStrings (atts.map attachmentTextBlock), []) := by
  induction atts with
  | nil =>
    intro mc
    simp [concatStrings, string_append_nil]
  | cons a rest ih =>
    intro mc
    rw [List.foldl_cons]
    by_cases hf : a.type = AttachmentType.file ∧ hasContent a.content
    · have hstep : attachmentStep false (mc, []) a =
          (mc ++ ("\n\n[File: " ++ a.name ++ "]\n" ++ a.content.getD ""), []) := by
        simp [attachmentStep, hf]
      rw [hstep, ih]
      simp [concatStrings, attachmentTextBlock, hf, string_append_assoc]
    · by_cases hi : a.type = AttachmentType.image ∧ hasContent a.content
      · have hstep : attachmentStep false (mc, []) a =
            (mc ++ ("\n\n[Image: " ++ a.name ++ "]"), []) := by
          simp [attachmentStep, hf, hi, string_append_assoc]
        rw [hstep, ih]
        simp [concatStrings, attachmentTextBlock, hf, hi, string_append_assoc]
      · have hstep : attachmentStep false (mc, []) a = (mc, []) := by
          simp [attachmentStep, hf, hi]
        rw [hstep, ih]
        have hblock : attachmentTextBlock a = "" := by
          simp [attachmentTextBlock, hf, hi]
        simp [concatStrings, hblock]

lemma convertMessage_false (msg : ChatMessage) :
    convertMessage false msg =
      { role := msg.role
        content := ApiContent.str
          (msg.content ++ concatStrings (msg.attachments.map attachmentTextBlock)) } := by
  simp only [convertMessage]
  have hinit : (if jsTrim msg.content ≠ "" ∧ (false : Bool) then [ContentPart.text msg.content]
      else ([] : List ContentPart)) = [] := by
    simp
  rw [hinit, attachmentStep_false]
  simp

/-! ## Supporting lemmas: splitSections -/

/-- An entry content that only draws on lines not starting with a hash. -/
def goodContent (e : MemoryEntry) : Prop :=
  ∃ ls : List String, (∀ l ∈ ls, startsWithHash l = false)
    ∧ e.content = jsTrim (String.intercalate "\n" ls)

lemma pushCurrent_buffer (s : SplitState) : (pushCurrent s).buffer = [] := by
  cases hb : s.buffer with
  | nil => simp [pushCurrent, hb]
  | cons l ls => simp [pushCurrent, hb]

lemma pushCurrent_good {s : SplitState}
    (hb : ∀ l ∈ s.buffer, startsWithHash l = false)
    (he : ∀ e ∈ s.entries, goodContent e) :
    ∀ e ∈ (pushCurrent s).entries, goodContent e := by
  intro e hmem
  by_cases hbe : s.buffer.isEmpty
  · rw [pushCurrent, if_pos hbe] at hmem
    exact he e hmem
  · rw [pushCurrent, if_neg hbe] at hmem
    rcases List.mem_append.mp hmem with h | h
    · exact he e h
    · simp only [List.mem_singleton] at h
      exact ⟨s.buffer, hb, by rw [h]⟩

lemma splitStep_good {s : SplitState} (line : String)
    (hb : ∀ l ∈ s.buffer, startsWithHash l = false)
    (he : ∀ e ∈ s.entries, goodContent e) :
    (∀ l ∈ (splitStep s line).buffer, startsWithHash l = false)
    ∧ (∀ e ∈ (splitStep s line).entries, goodContent e) := by
  rw [splitStep]
  cases hh : headingTitle line with
  | some title =>
    refine ⟨?_, ?_⟩
    · simp [pushCurrent_buffer]
    · intro e hmem
      exact pushCurrent_good hb he e hmem
  | none =>
    by_cases hhash : startsWithHash line
    · simp only [hhash, if_true]
      exact ⟨hb, he⟩
    · simp only [hhash, if_false]
      refine ⟨?_, he⟩
      intro l hl
      rcases List.mem_append.mp hl with h | h
      · exact hb l h
      · simp only [List.mem_singleton] at h
        rw [h]
        simpa using hhash

lemma foldl_splitStep_good (lines : List String) :
    ∀ s : SplitState,
    (∀ l ∈ s.buffer, startsWithHash l = false) →
    (∀ e ∈ s.entries, goodContent e) →
    (∀ l ∈ (lines.foldl splitStep s).buffer, startsWithHash l = false)
    ∧ (∀ e ∈ (lines.foldl splitStep s).entries, goodContent e) := by
  induction lines with
  | nil => intro s hb he; exact ⟨hb, he⟩
  | cons line rest ih =>
    intro s hb he
    rw [List.foldl_cons]
    obtain ⟨hb2, he2⟩ := splitStep_good line hb he
    exact ih _ hb2 he2

lemma foldl_no_heading (pre : List String) :
    ∀ (t : String) (b : List String),
    (∀ l ∈ pre, headingTitle l = none) →
    List.foldl splitStep { currentTitle := t, buffer := b, entries := [] } pre =
      { currentTitle := t, buffer := b ++ pre.filter (fun l => !startsWithHash l),
        entries := [] } := by
  induction pre with
  | nil => intro t b _; simp
  | cons line rest ih =>
    intro t b hno
    have hline : headingTitle line = none := hno line (List.mem_cons_self _ _)
    rw [List.foldl_cons]
    by_cases hhash : startsWithHash line
    · have hstep : splitStep { currentTitle := t, buffer := b, entries := [] } line =
          { currentTitle := t, buffer := b, entries := [] } := by
        rw [splitStep, hline]
        simp [hhash]
      rw [hstep, ih t b (fun l hl => hno l (List.mem_cons_of_mem _ hl))]
      simp [List.filter_cons, hhash]
    · have hstep : splitStep { currentTitle := t, buffer := b, entries := [] } line =
          { currentTitle := t, buffer := b ++ [line], entries := [] } := by
        rw [splitStep, hline]
        simp [hhash]
      rw [hstep, ih t (b ++ [line]) (fun l hl => hno l (List.mem_cons_of_mem _ hl))]
      simp [List.filter_cons, hhash]

lemma entries_extend_push (s : SplitState) :
    ∃ t, (pushCurrent s).entries = s.entries ++ t := by
  by_cases hbe : s.buffer.isEmpty
  · exact ⟨[], by rw [pushCurrent, if_pos hbe, List.append_nil]⟩
  · exact ⟨_, by rw [pushCurrent, if_neg hbe]⟩

lemma entries_extend_foldl (lines : List String) :
    ∀ s : SplitState, ∃ t, (lines.foldl splitStep s).entries = s.entries ++ t := by
  induction lines with
  | nil => intro s; exact ⟨[], (List.append_nil _).symm⟩
  | cons line rest ih =>
    intro s
    rw [List.foldl_cons]
    cases hh : headingTitle line with
    | some title =>
      have hstep : splitStep s line =
          { currentTitle := title, buffer := (pushCurrent s).buffer,
            entries := (pushCurrent s).entries } := by
        rw [splitStep, hh]
      obtain ⟨t1, ht1⟩ := ih { currentTitle := title, buffer := (pushCurrent s).buffer,
                               entries := (pushCurrent s).entries }
      obtain ⟨t0, ht0⟩ := entries_extend_push s
      refine ⟨t0 ++ t1, ?_⟩
      rw [hstep, ht1]
      show (pushCurrent s).entries ++ t1 = s.entries ++ (t0 ++ t1)
      rw [ht0, List.append_assoc]
    | none =>
      by_cases hhash : startsWithHash line
      · have hstep : splitStep s line = s := by
          rw [splitStep, hh]
          simp [hhash]
        rw [hstep]
        exact ih s
      · have hstep : splitStep s line =
            { currentTitle := s.currentTitle, buffer := s.buffer ++ [line],
              entries := s.entries } := by
          rw [splitStep, hh]
          simp [hhash]
        obtain ⟨t1, ht1⟩ := ih { currentTitle := s.currentTitle, buffer := s.buffer ++ [line],
                                 entries := s.entries }
        refine ⟨t1, ?_⟩
        rw [hstep, ht1]

lemma contains_iff_mem (l : List String) (x : String) : l.contains x = true ↔ x ∈ l :=
  List.elem_iff

lemma not_mem_removeDismissed (l : List String) (x : String) : x ∉ removeDismissed l x := by
  simp [removeDismissed]

lemma mem_splitSections_content_ne {md : String} {e : MemoryEntry}
    (h : e ∈ splitSections md) : e.content ≠ "" := by
  simp only [splitSections] at h
  have hp := (List.mem_filter.mp h).2
  exact string_ne_empty_of_length_pos (by simpa using hp)

lemma errorChatMessage_role (m : String) (now : Nat) :
    (errorChatMessage m now).role = "assistant" := rfl

lemma errorChatMessage_starts (m : String) (now : Nat) :
    startsWithStr (errorChatMessage m now).content "**Error:** " = true :=
  startsWithStr_append "**Error:** " _

/-! ## Claim theorems -/

/-- C8 counterexample: the createNewThread command (bound to the
denix-ai.newThread command) clears the dismissal set, so the claim that
invoking newThread leaves the dismissal set unchanged is false on the state
whose dismissal set holds the id "selection". -/
theorem claim8_counterexample :
    (createNewThread { threadId := "thread-1", messages := [], attachments := [], contextAttachments := [], dismissedContextIds := ["selection"], selectedModel := "openai/gpt-4", autoMode := true } 2).dismissedContextIds ≠ ["selection"] := by
  decide

/-- C8 amended: both newThread entry points reset the message list and the
explicit-attachment list and assign the thread id derived from the current
time, and both leave the selected model unchanged; the webview newThread
command leaves the dismissal set and the context attachments unchanged,
while the public createNewThread command clears the dismissal set and the
context-attachment list as well. -/
theorem claim8_amended (s : PanelState) (now : Nat) :
    ((handleNewThreadCommand s now).threadId = "thread-" ++ toString now
      ∧ (handleNewThreadCommand s now).messages = []
      ∧ (handleNewThreadCommand s now).attachments = []
      ∧ (handleNewThreadCommand s now).dismissedContextIds = s.dismissedContextIds
      ∧ (handleNewThreadCommand s now).selectedModel = s.selectedModel
      ∧ (handleNewThreadCommand s now).contextAttachments = s.contextAttachments
      ∧ (handleNewThreadCommand s now).autoMode = s.autoMode)
    ∧ ((createNewThread s now).threadId = "thread-" ++ toString now
      ∧ (createNewThread s now).messages = []
      ∧ (createNewThread s now).attachments = []
      ∧ (createNewThread s now).contextAttachments = []
      ∧ (createNewThread s now).dismissedContextIds = []
      ∧ (createNewThread s now).selectedModel = s.selectedModel
      ∧ (createNewThread s now).autoMode = s.autoMode) :=
  ⟨⟨rfl, rfl, rfl, rfl, rfl, rfl, rfl⟩, rfl, rfl, rfl, rfl, rfl, rfl, rfl⟩

/-- C9 counterexample: on a bound workspace with no .denix directory, one
buildContext call changes the file-system state (it creates the directory,
the memories file, the guidelines file and the rules directory), so the
claim that the context assembler has no side effects on the file system is
false. -/
theorem claim9_counterexample :
    (buildContextFS true { denixDir := false, memoriesFile := none, guidelinesFile := none, rulesDir := false, ruleFiles := [] } [] none).1 ≠
      { denixDir := false, memoriesFile := none, guidelinesFile := none, rulesDir := false, ruleFiles := [] } := by
  decide

/-- C9 amended: buildContext ensures the stores exist as a side effect of
loading them: on a bound workspace it leaves the .denix directory and the
rules directory existing, the memories file existing with its previous
content or the default, and the guidelines file existing with its previous
content or empty; rule-file contents are never created or modified.  With
no workspace bound, the file system is untouched. -/
theorem claim9_amended (fs : FS) (kws : List String) (sel : Option SelectionContext) :
    (buildContextFS true fs kws sel).1 =
      { denixDir := true, rulesDir := true,
        memoriesFile := some (fs.memoriesFile.getD DEFAULT_MEMORIES),
        guidelinesFile := some (fs.guidelinesFile.getD ""),
        ruleFiles := fs.ruleFiles }
    ∧ (buildContextFS false fs kws sel).1 = fs := by
  constructor
  · rw [buildContextFS_true]
    rfl
  · rw [buildContextFS_false]

/-- C4: with no keywords, getRelevantMemories returns every non-empty entry
of the document; with keywords, it returns exactly the entries whose
section title joined with the content contains some keyword
case-insensitively, preserving document order; on the two-section
Auth/Database document, the keyword "auth" selects exactly the Auth entry
and no keywords selects both. -/
theorem claim4_relevant_memories (md : String) (kws : List String) (hk : kws ≠ []) :
    getRelevantMemories md [] = splitSections md
    ∧ (∀ e ∈ getRelevantMemories md kws, e.content ≠ "")
    ∧ List.Sublist (getRelevantMemories md kws) (splitSections md)
    ∧ (∀ e ∈ splitSections md,
        (e ∈ getRelevantMemories md kws ↔
          ∃ k ∈ kws,
            containsSub (toLowerStr (e.sectionName ++ "\n" ++ e.content)) (toLowerStr k) = true))
    ∧ getRelevantMemories "## Auth\nUse OAuth tokens.\n## Database\nUse Postgres." ["auth"] =
        [{ sectionName := "Auth", content := "Use OAuth tokens." }]
    ∧ getRelevantMemories "## Auth\nUse OAuth tokens.\n## Database\nUse Postgres." [] =
        [{ sectionName := "Auth", content := "Use OAuth tokens." },
         { sectionName := "Database", content := "Use Postgres." }] := by
  obtain ⟨k0, ks, rfl⟩ : ∃ k0 ks, kws = k0 :: ks := by
    cases kws with
    | nil => exact absurd rfl hk
    | cons k0 ks => exact ⟨k0, ks, rfl⟩
  refine ⟨?_, ?_, ?_, ?_, by decide, by decide⟩
  · simp [getRelevantMemories]
  · intro e he
    simp only [getRelevantMemories, List.isEmpty_cons, if_false] at he
    exact mem_splitSections_content_ne (List.mem_filter.mp he).1
  · simp only [getRelevantMemories, List.isEmpty_cons, if_false]
    exact List.filter_sublist _
  · intro e he
    simp only [getRelevantMemories, List.isEmpty_cons, Bool.false_eq_true, if_false]
    rw [List.mem_filter]
    simp only [he, true_and, List.any_eq_true, List.mem_map]
    constructor
    · rintro ⟨kw, ⟨k, hkmem, rfl⟩, hc⟩
      exact ⟨k, hkmem, hc⟩
    · rintro ⟨k, hkmem, hc⟩
      exact ⟨toLowerStr k, ⟨k, hkmem, rfl⟩, hc⟩

/-- C4 witness at concrete inputs. -/
theorem claim4_relevant_memories_witness :
    (["auth"] : List String) ≠ []
    ∧ getRelevantMemories "## Auth\nUse OAuth tokens.\n## Database\nUse Postgres." ["auth"] =
        [{ sectionName := "Auth", content := "Use OAuth tokens." }] :=
  ⟨by decide,
   (claim4_relevant_memories "## Auth\nUse OAuth tokens.\n## Database\nUse Postgres." ["auth"]
     (by decide)).2.2.2.2.1⟩

/-- C2: one reconciler recompute is a deterministic function of the store
state, selection and dismissal set; its output is, in this fixed order, the
synthetic Memories attachment exactly when a relevant memory string exists
(content joined with a blank-line separator), one attachment per rule with
id rule-name skipped exactly when that id is dismissed, and the selection
attachment with fixed id selection exactly when a selection snapshot exists
and selection is not dismissed; equal inputs give identical output lists,
so recomputing twice with no intervening change repeats the same list. -/
theorem claim2_recompute (fs fs2 : FS) (kws kws2 : List String)
    (sel sel2 : Option SelectionContext) (dismissed dismissed2 : List String)
    (hfs : fs2 = fs) (hkws : kws2 = kws) (hsel : sel2 = sel) (hd : dismissed2 = dismissed) :
    recomputeContextAttachments true fs kws sel dismissed =
      memoriesAttachmentsOf (relevantMemoryStringsOf fs kws)
      ++ ruleAttachmentsOf dismissed (assembledRulesOf fs)
      ++ selectionAttachmentsOf dismissed sel
    ∧ recomputeContextAttachments true fs2 kws2 sel2 dismissed2 =
        recomputeContextAttachments true fs kws sel dismissed := by
  subst hfs hkws hsel hd
  refine ⟨?_, rfl⟩
  simp only [recomputeContextAttachments]
  rw [buildContextFS_true, updateContextAttachments_eq]

/-- C2 witness at concrete inputs. -/
theorem claim2_recompute_witness :
    recomputeContextAttachments true
        { denixDir := true, memoriesFile := some "## Auth\nUse tokens.", guidelinesFile := some "", rulesDir := true, ruleFiles := [("style.md", "Indent.")] }
        [] none ["rule-style"] =
      memoriesAttachmentsOf (relevantMemoryStringsOf { denixDir := true, memoriesFile := some "## Auth\nUse tokens.", guidelinesFile := some "", rulesDir := true, ruleFiles := [("style.md", "Indent.")] } [])
      ++ ruleAttachmentsOf ["rule-style"] (assembledRulesOf { denixDir := true, memoriesFile := some "## Auth\nUse tokens.", guidelinesFile := some "", rulesDir := true, ruleFiles := [("style.md", "Indent.")] })
      ++ selectionAttachmentsOf ["rule-style"] none :=
  (claim2_recompute
    { denixDir := true, memoriesFile := some "## Auth\nUse tokens.", guidelinesFile := some "", rulesDir := true, ruleFiles := [("style.md", "Indent.")] }
    { denixDir := true, memoriesFile := some "## Auth\nUse tokens.", guidelinesFile := some "", rulesDir := true, ruleFiles := [("style.md", "Indent.")] }
    [] [] none none ["rule-style"] ["rule-style"] rfl rfl rfl rfl).1

/-- C3 counterexample: the memories attachment is not filtered by the
dismissal set, so with the id "memories" dismissed and one relevant memory
present, the published context-attachment list still carries the id
"memories", refuting the claim that no dismissed id ever appears. -/
theorem claim3_counterexample :
    (["memories"] : List String).contains "memories" = true
    ∧ ((updateContextAttachments { memories := "", relevantMemories := ["## Db\nUse Postgres."], guidelines := "", rules := [], selection := none } ["memories"]).map Attachment.id).contains "memories" = true := by
  decide

/-- C3 amended: a dismissed id other than "memories" never appears in the
published context-attachment list; the memories attachment is exempt from
dismissal and is published exactly when relevant memory strings exist,
whatever the dismissal set holds; and after deleting a dismissed id from
the set and recomputing, that id reappears exactly when its source (a rule
of that name, or the selection snapshot) still exists. -/
theorem claim3_amended (ctx : BuiltContext) (dismissed : List String) (x : String)
    (hx : dismissed.contains x = true) (hxm : x ≠ "memories") :
    (∀ a ∈ updateContextAttachments ctx dismissed, a.id ≠ x)
    ∧ (((updateContextAttachments ctx (removeDismissed dismissed x)).map
          Attachment.id).contains x = sourceStillExists ctx x)
    ∧ (((updateContextAttachments ctx dismissed).map Attachment.id).contains "memories"
        = !ctx.relevantMemories.isEmpty) := by
  have hxmem : x ∈ dismissed := (contains_iff_mem _ _).mp hx
  refine ⟨?_, ?_, ?_⟩
  · intro a ha
    rcases mem_updateContextAttachments.mp ha with ⟨_, rfl⟩ | ⟨r, _, hnd, rfl⟩ | ⟨sel, _, hnd, rfl⟩
    · intro h
      exact hxm h.symm
    · intro h
      subst h
      exact hnd hxmem
    · intro h
      subst h
      exact hnd hxmem
  · rw [Bool.eq_iff_iff, contains_iff_mem, List.mem_map]
    have hxr : x ∉ removeDismissed dismissed x := not_mem_removeDismissed dismissed x
    constructor
    · rintro ⟨a, ha, hid⟩
      rcases mem_updateContextAttachments.mp ha with ⟨_, rfl⟩ | ⟨r, hr, _, rfl⟩ | ⟨sel, hsel, _, rfl⟩
      · exact absurd hid.symm hxm
      · have hid2 : ("rule-" ++ r.name : String) = x := hid
        rw [← hid2, sourceStillExists]
        rw [if_neg (Ne.symm (memories_ne_ruleId r.name)),
            if_neg (Ne.symm (selection_ne_ruleId r.name))]
        simp only [List.any_eq_true, beq_iff_eq]
        exact ⟨r, hr, rfl⟩
      · have hid2 : ("selection" : String) = x := hid
        rw [← hid2, sourceStillExists, if_neg (by decide), if_pos rfl, hsel]
        rfl
    · intro hsrc
      rw [sourceStillExists] at hsrc
      rw [if_neg hxm] at hsrc
      by_cases hxs : x = "selection"
      · subst hxs
        rw [if_pos rfl] at hsrc
        obtain ⟨sel, hsel⟩ := Option.isSome_iff_exists.mp hsrc
        refine ⟨selectionAttachment sel, ?_, rfl⟩
        exact mem_updateContextAttachments.mpr (Or.inr (Or.inr ⟨sel, hsel, hxr, rfl⟩))
      · rw [if_neg hxs] at hsrc
        simp only [List.any_eq_true, beq_iff_eq] at hsrc
        obtain ⟨r, hr, hxid⟩ := hsrc
        subst hxid
        refine ⟨ruleAttachment r, ?_, rfl⟩
        exact mem_updateContextAttachments.mpr (Or.inr (Or.inl ⟨r, hr, hxr, rfl⟩))
  · rw [Bool.eq_iff_iff, contains_iff_mem, List.mem_map]
    constructor
    · rintro ⟨a, ha, hid⟩
      rcases mem_updateContextAttachments.mp ha with ⟨hm, rfl⟩ | ⟨r, _, _, rfl⟩ | ⟨sel, _, _, rfl⟩
      · simpa using hm
      · exact absurd hid.symm (memories_ne_ruleId r.name)
      · have hne : ("selection" : String) ≠ "memories" := by decide
        exact absurd hid hne
    · intro hm
      refine ⟨memoriesAttachment ctx.relevantMemories, ?_, rfl⟩
      refine mem_updateContextAttachments.mpr (Or.inl ⟨?_, rfl⟩)
      simpa using hm

/-- C3 witness at concrete inputs. -/
theorem claim3_amended_witness :
    (["rule-style", "selection"] : List String).contains "rule-style" = true
    ∧ ("rule-style" : String) ≠ "memories"
    ∧ (∀ a ∈ updateContextAttachments { memories := "", relevantMemories := [], guidelines := "", rules := [{ name := "style", path := "p", content := "c" }], selection := none } ["rule-style", "selection"], a.id ≠ "rule-style") :=
  ⟨by decide, by decide,
   (claim3_amended
     { memories := "", relevantMemories := [], guidelines := "",
       rules := [{ name := "style", path := "p", content := "c" }], selection := none }
     ["rule-style", "selection"] "rule-style" (by decide) (by decide)).1⟩

/-- C1 counterexample: with the id "memories" dismissed and one relevant
memory string present, the merged list published for a send still carries
the id "memories", so the published list is not the union minus the
dismissed ids. -/
theorem claim1_counterexample :
    ((mergeAttachments [] (updateContextAttachments { memories := "", relevantMemories := ["## Auth\nUse tokens."], guidelines := "", rules := [], selection := none } ["memories"])).map Attachment.id) = ["memories"]
    ∧ (["memories"] : List String).contains "memories" = true := by
  decide

/-- C1 amended: the published list is the plain concatenation of the
explicit attachments with the context attachments; the context part never
carries a dismissed id other than "memories" (the memories attachment is
exempt from dismissal); no deduplication between the two parts is
performed, so id uniqueness of the whole list holds exactly when the
explicit ids are themselves unique, avoid the context ids, and the rule
names are pairwise distinct. -/
theorem claim1_amended (explicitAtts : List Attachment) (ctx : BuiltContext)
    (dismissed : List String)
    (hnames : (ctx.rules.map RuleFile.name).Nodup)
    (hdisj : ∀ a ∈ explicitAtts,
      a.id ∉ (updateContextAttachments ctx dismissed).map Attachment.id)
    (hexp : (explicitAtts.map Attachment.id).Nodup) :
    mergeAttachments explicitAtts (updateContextAttachments ctx dismissed) =
      explicitAtts ++ updateContextAttachments ctx dismissed
    ∧ (∀ a ∈ updateContextAttachments ctx dismissed, a.id ∈ dismissed → a.id = "memories")
    ∧ ((mergeAttachments explicitAtts
          (updateContextAttachments ctx dismissed)).map Attachment.id).Nodup := by
  refine ⟨rfl, ?_, ?_⟩
  · intro a ha hd
    rcases mem_updateContextAttachments.mp ha with ⟨_, rfl⟩ | ⟨r, _, hnd, rfl⟩ | ⟨sel, _, hnd, rfl⟩
    · rfl
    · exact absurd hd hnd
    · exact absurd hd hnd
  · rw [mergeAttachments, List.map_append, List.nodup_append]
    refine ⟨hexp, updateContextAttachments_ids_nodup ctx dismissed hnames, ?_⟩
    intro i hi hi2
    obtain ⟨a, ha, rfl⟩ := List.mem_map.mp hi
    exact hdisj a ha hi2

/-- C1 witness at concrete inputs. -/
theorem claim1_amended_witness :
    ((mergeAttachments [{ id := "file-1", type := AttachmentType.file, name := "a.txt", path := some "a.txt", content := some "data", thumbnail := none }] (updateContextAttachments { memories := "", relevantMemories := ["## Auth\nUse tokens."], guidelines := "", rules := [{ name := "style", path := "p", content := "c" }], selection := none } [])).map Attachment.id).Nodup :=
  (claim1_amended
    [{ id := "file-1", type := AttachmentType.file, name := "a.txt", path := some "a.txt", content := some "data", thumbnail := none }]
    { memories := "", relevantMemories := ["## Auth\nUse tokens."], guidelines := "",
      rules := [{ name := "style", path := "p", content := "c" }], selection := none }
    [] (by decide) (by decide) (by decide)).2.2

/-- C5: for a model that is not vision-capable, the built request contains
zero image-type content parts, and every history message becomes a plain
string: its own text followed, per attachment, by an inlined file block or
a bracketed image marker (one marker per image attachment with content). -/
theorem claim5_nonvision_request (model systemContent : String) (history : List ChatMessage)
    (hv : isVisionModel model = false) :
    requestImageParts (buildApiMessages (isVisionModel model) systemContent history) = 0
    ∧ ∀ msg ∈ history,
        convertMessage (isVisionModel model) msg =
          { role := msg.role
            content := ApiContent.str
              (msg.content ++ concatStrings (msg.attachments.map attachmentTextBlock)) } := by
  rw [hv]
  constructor
  · rw [buildApiMessages, requestImageParts]
    apply List.sum_eq_zero
    intro n hn
    rcases List.mem_map.mp hn with ⟨m, hm, rfl⟩
    rcases List.mem_cons.mp hm with rfl | hm2
    · rfl
    · rcases List.mem_map.mp hm2 with ⟨msg, _, rfl⟩
      rw [convertMessage_false]
      rfl
  · intro msg _
    exact convertMessage_false msg

/-- C5 witness at concrete inputs. -/
theorem claim5_nonvision_request_witness :
    isVisionModel "openai/gpt-3.5-turbo" = false
    ∧ requestImageParts (buildApiMessages (isVisionModel "openai/gpt-3.5-turbo") "sys"
        [{ id := "m1", role := "user", content := "look", attachments := [{ id := "image-1", type := AttachmentType.image, name := "shot.png", path := some "", content := some "QUJD", thumbnail := some "QUJD" }], timestamp := 0 }]) = 0 :=
  ⟨by decide,
   (claim5_nonvision_request "openai/gpt-3.5-turbo" "sys"
     [{ id := "m1", role := "user", content := "look", attachments := [{ id := "image-1", type := AttachmentType.image, name := "shot.png", path := some "", content := some "QUJD", thumbnail := some "QUJD" }], timestamp := 0 }]
     (by decide)).1⟩

/-- C6: whenever a send actually fires (the no-op guard does not hold) and
the provider interaction fails in any of the taxonomy's ways - missing
credentials, a thrown transport or body-parse error, a non-2xx status, or a
2xx response without usable content - the handler appends exactly one
assistant-role message whose text starts with the error marker after the
user message, and the typing/awaitingResponse flag ends false, never stuck. -/
theorem claim6_error_recovery (oldMessages : List ChatMessage)
    (stateAtts contextAtts : List Attachment) (content : String)
    (attachments : List Attachment) (apiKey : Option String) (maxTokens : Nat)
    (model : String) (ws : Bool) (fs : FS) (selection : Option SelectionContext)
    (provider : ProviderResult) (now : Nat)
    (hfail : isProviderFailure apiKey provider)
    (hsend : ¬(jsTrim content = ""
      ∧ (mergeAttachments attachments contextAtts).isEmpty = true)) :
    (handleUserMessage oldMessages stateAtts contextAtts content attachments apiKey
        maxTokens model ws fs selection provider now).generating = false
    ∧ ∃ e : ChatMessage,
        (handleUserMessage oldMessages stateAtts contextAtts content attachments apiKey
            maxTokens model ws fs selection provider now).messages =
          oldMessages ++
            [{ id := "msg-" ++ toString now, role := "user", content := content,
               attachments := mergeAttachments attachments contextAtts, timestamp := now }]
            ++ [e]
        ∧ e.role = "assistant"
        ∧ startsWithStr e.content "**Error:** " = true := by
  simp only [handleUserMessage]
  rw [if_neg hsend]
  cases apiKey with
  | none =>
    exact ⟨rfl,
      errorChatMessage "OpenRouter API key not configured. Please set it in settings." now,
      rfl, rfl, errorChatMessage_starts _ _⟩
  | some key =>
    cases provider with
    | thrown m =>
      exact ⟨rfl, errorChatMessage m now, rfl, rfl, errorChatMessage_starts _ _⟩
    | httpError status body =>
      exact ⟨rfl, errorChatMessage (httpErrorMessage status maxTokens body) now,
        rfl, rfl, errorChatMessage_starts _ _⟩
    | success contentOpt =>
      have hempty : jsOr contentOpt "" = "" := by
        rcases hfail with h | h
        · exact absurd h (by simp)
        · exact h
      refine ⟨by simp [hempty], errorChatMessage "AI returned empty response" now,
        ?_, rfl, errorChatMessage_starts _ _⟩
      simp [hempty]

/-- C6 witness at concrete inputs. -/
theorem claim6_error_recovery_witness :
    isProviderFailure (some "key") (ProviderResult.httpError 402 (ErrorBody.parsedWithError (some "insufficient credits")))
    ∧ (handleUserMessage [] [] [] "hi" [] (some "key") 500 "openai/gpt-4" false { denixDir := false, memoriesFile := none, guidelinesFile := none, rulesDir := false, ruleFiles := [] } none (ProviderResult.httpError 402 (ErrorBody.parsedWithError (some "insufficient credits"))) 0).generating = false :=
  ⟨Or.inr trivial,
   (claim6_error_recovery [] [] [] "hi" [] (some "key") 500 "openai/gpt-4" false
     { denixDir := false, memoriesFile := none, guidelinesFile := none, rulesDir := false, ruleFiles := [] }
     none (ProviderResult.httpError 402 (ErrorBody.parsedWithError (some "insufficient credits"))) 0
     (Or.inr trivial) (by decide)).1⟩

/-! ## The C7 scenario: guidelines "Be concise.", one rule "style", send "hello" -/

/-- Store state of the C7 scenario: default memories, guidelines text
"Be concise.", and one rule file style.md with content
"Use 2-space indent.". -/
def scenarioFS : FS :=
  { denixDir := true, memoriesFile := some DEFAULT_MEMORIES,
    guidelinesFile := some "Be concise.", rulesDir := true,
    ruleFiles := [("style.md", "Use 2-space indent.")] }

/-- The context attachments the reconciler publishes for the scenario
before the message is sent (no keywords, no selection, nothing dismissed). -/
def scenarioContextAtts : List Attachment :=
  recomputeContextAttachments true scenarioFS [] none []

/-- The outcome of sending "hello" on the scenario state with the default
model. -/
def scenarioResult : SendResult :=
  handleUserMessage [] [] scenarioContextAtts "hello" [] (some "key") 500
    "anthropic/claude-3.5-sonnet" true scenarioFS none
    (ProviderResult.success (some "ok")) 0

/-- C7 counterexample: in the scenario, the rule content
"Use 2-space indent." does not occur in the system message of the built
request (the system message only carries the persona, the guidelines and
the project memories), refuting the claim that the system message contains
both texts. -/
theorem claim7_counterexample :
    (requestSystemText scenarioResult).map (fun s => containsSub s "Use 2-space indent.") =
      some false
    ∧ (requestSystemText scenarioResult).map (fun s => containsSub s "Be concise.") =
      some true := by
  decide

/-- C7 amended: the built request carries both texts verbatim, but in
different messages: "Be concise." inside the User Guidelines section of the
system message, and "Use 2-space indent." inside the user message, where
the rule is inlined as a File attachment block; in general a non-empty
guidelines text appears verbatim right after the fixed persona string under
the literal User Guidelines header, before any Project Memories section. -/
theorem claim7_amended (g : String) (rm : List String) (hg : g ≠ "") :
    (∃ rest, buildSystemContent g rm =
        personaPrompt ++ "\n\n## User Guidelines:\n" ++ g ++ rest)
    ∧ (requestSystemText scenarioResult).map (fun s => containsSub s "Be concise.") =
        some true
    ∧ (requestMessageText scenarioResult 1).map
        (fun s => containsSub s "Use 2-space indent.") = some true
    ∧ (requestMessageText scenarioResult 1).map
        (fun s => containsSub s "[File: @style]") = some true := by
  refine ⟨?_, by decide, by decide, by decide⟩
  rw [buildSystemContent]
  rw [if_pos hg]
  by_cases hrm : rm.length > 0
  · rw [if_pos hrm]
    exact ⟨"\n\n## Project Memories:\n" ++ String.intercalate "\n\n" rm,
      by rw [string_append_assoc]⟩
  · rw [if_neg hrm]
    exact ⟨"", (string_append_nil _).symm⟩

/-- C7 witness at concrete inputs. -/
theorem claim7_amended_witness :
    ("Be concise." : String) ≠ ""
    ∧ ∃ rest, buildSystemContent "Be concise." [] =
        personaPrompt ++ "\n\n## User Guidelines:\n" ++ "Be concise." ++ rest :=
  ⟨by decide, (claim7_amended "Be concise." [] (by decide)).1⟩

lemma dropWhile_head_false {α : Type} (p : α → Bool) (l : List α) {x : α} {xs : List α}
    (h : l.dropWhile p = x :: xs) : p x = false := by
  induction l with
  | nil => simp at h
  | cons a as ih =>
    by_cases hp : p a = true
    · rw [List.dropWhile_cons, if_pos hp] at h
      exact ih h
    · rw [List.dropWhile_cons, if_neg hp] at h
      injection h with h1 _
      subst h1
      exact Bool.eq_false_iff.mpr hp

/-- C10: for every memories document, every entry produced by splitSections
draws its content only from lines that do not begin with a hash mark (so
the document title line and any deeper headings never reach an entry, and
keyword matching never sees them); and whenever the content collected
before the first "##" heading is non-empty after trimming, it forms the
first entry under the section name General. -/
theorem claim10_splitSections (md : String) :
    (∀ e ∈ splitSections md, ∃ ls : List String,
        (∀ l ∈ ls, startsWithHash l = false)
        ∧ e.content = jsTrim (String.intercalate "\n" ls))
    ∧ (preGeneralContent md ≠ "" →
        (splitSections md).head? =
          some { sectionName := "General", content := preGeneralContent md }) := by
  constructor
  · intro e he
    have hinv := foldl_splitStep_good (splitLines md)
      { currentTitle := "General", buffer := [], entries := [] }
      (by intro l hl; simp at hl) (by intro e2 he2; simp at he2)
    have he2 : e ∈ (pushCurrent ((splitLines md).foldl splitStep
        { currentTitle := "General", buffer := [], entries := [] })).entries := by
      simp only [splitSections] at he
      exact (List.mem_filter.mp he).1
    exact pushCurrent_good hinv.1 hinv.2 e he2
  · intro hpre
    have hno : ∀ l ∈ (splitLines md).takeWhile (fun l => (headingTitle l).isNone),
        headingTitle l = none := by
      intro l hl
      have h := List.mem_takeWhile_imp hl
      simpa [Option.isNone_iff_eq_none] using h
    have hfold1 := foldl_no_heading
      ((splitLines md).takeWhile (fun l => (headingTitle l).isNone)) "General" [] hno
    rw [List.nil_append] at hfold1
    have hcontent : preGeneralContent md =
        jsTrim (String.intercalate "\n"
          (((splitLines md).takeWhile (fun l => (headingTitle l).isNone)).filter
            (fun l => !startsWithHash l))) := rfl
    have hFne : ((splitLines md).takeWhile (fun l => (headingTitle l).isNone)).filter
        (fun l => !startsWithHash l) ≠ [] := by
      intro h
      apply hpre
      rw [hcontent, h]
      rfl
    have hpush : pushCurrent
        { currentTitle := "General",
          buffer := ((splitLines md).takeWhile (fun l => (headingTitle l).isNone)).filter
            (fun l => !startsWithHash l),
          entries := [] } =
        { currentTitle := "General", buffer := [],
          entries := [{ sectionName := "General", content := preGeneralContent md }] } := by
      rw [pushCurrent, if_neg (by simpa [List.isEmpty_iff] using hFne)]
      rw [hcontent]
      rfl
    have hlines : splitLines md =
        (splitLines md).takeWhile (fun l => (headingTitle l).isNone)
          ++ (splitLines md).dropWhile (fun l => (headingTitle l).isNone) :=
      (List.takeWhile_append_dropWhile _ _).symm
    have hkeep : decide (0 < (preGeneralContent md).length) = true :=
      decide_eq_true (string_length_pos hpre)
    cases hdrop : (splitLines md).dropWhile (fun l => (headingTitle l).isNone) with
    | nil =>
      have hfold : (splitLines md).foldl splitStep
          { currentTitle := "General", buffer := [], entries := [] } =
          { currentTitle := "General",
            buffer := ((splitLines md).takeWhile (fun l => (headingTitle l).isNone)).filter
              (fun l => !startsWithHash l),
            entries := [] } := by
        conv_lhs => rw [hlines, hdrop, List.append_nil]
        exact hfold1
      show ((pushCurrent ((splitLines md).foldl splitStep
          { currentTitle := "General", buffer := [], entries := [] })).entries.filter
            (fun e => e.content.length > 0)).head? = _
      rw [hfold, hpush]
      simp only [List.filter_cons, List.filter_nil]
      rw [if_pos (by simpa using hkeep)]
      rfl
    | cons h0 rest2 =>
      obtain ⟨ttl, httl⟩ : ∃ t, headingTitle h0 = some t := by
        have hph := dropWhile_head_false (fun l => (headingTitle l).isNone) (splitLines md) hdrop
        have hph2 : (headingTitle h0).isNone = false := hph
        cases hh : headingTitle h0 with
        | none => rw [hh] at hph2; simp at hph2
        | some t => exact ⟨t, rfl⟩
      have hstep : splitStep
          { currentTitle := "General",
            buffer := ((splitLines md).takeWhile (fun l => (headingTitle l).isNone)).filter
              (fun l => !startsWithHash l),
            entries := [] } h0 =
          { currentTitle := ttl, buffer := [],
            entries := [{ sectionName := "General", content := preGeneralContent md }] } := by
        rw [splitStep, httl, hpush]
      have hfold : (splitLines md).foldl splitStep
          { currentTitle := "General", buffer := [], entries := [] } =
          rest2.foldl splitStep
            { currentTitle := ttl, buffer := [],
              entries := [{ sectionName := "General", content := preGeneralContent md }] } := by
        conv_lhs => rw [hlines, hdrop]
        rw [List.foldl_append, hfold1, List.foldl_cons, hstep]
      obtain ⟨t1, ht1⟩ := entries_extend_foldl rest2
        { currentTitle := ttl, buffer := [],
          entries := [{ sectionName := "General", content := preGeneralContent md }] }
      obtain ⟨t2, ht2⟩ := entries_extend_push (rest2.foldl splitStep
        { currentTitle := ttl, buffer := [],
          entries := [{ sectionName := "General", content := preGeneralContent md }] })
      show ((pushCurrent ((splitLines md).foldl splitStep
          { currentTitle := "General", buffer := [], entries := [] })).entries.filter
            (fun e => e.content.length > 0)).head? = _
      rw [hfold, ht2, ht1]
      simp only [List.cons_append, List.nil_append, List.filter_cons]
      rw [if_pos (by simpa using hkeep)]
      rfl

/-- C10 witness at a concrete document. -/
theorem claim10_splitSections_witness :
    preGeneralContent "# Denix AI Memories\nRemember this.\n## Auth\nUse tokens." ≠ ""
    ∧ (splitSections "# Denix AI Memories\nRemember this.\n## Auth\nUse tokens.").head? =
        some { sectionName := "General",
               content := preGeneralContent "# Denix AI Memories\nRemember this.\n## Auth\nUse tokens." } :=
  ⟨by decide,
   (claim10_splitSections "# Denix AI Memories\nRemember this.\n## Auth\nUse tokens.").2
     (by decide)⟩

end Denix
